import Mathlib

/-!
Shallow embedding of the snake game in `src/main.rs` (a Bevy app with GGRS
rollback netcode).  The deterministic per-tick systems of the rollback
schedule (`update_dir`, `move_snake`, `check_collisions`, `add_segment`,
`game_over`) are translated as pure Lean functions over an explicit
`FrameState`.

Coordinates: the source stores positions in `Transform.translation` as `f32`,
but every value it ever produces is an integer (multiples of `BOX_SIZE = 26`,
offset by `BOX_SIZE / 2 = 13`), and the only operations are additions and
subtractions of `26`, comparisons, and equality tests — all exact in `f32`
for this range.  We therefore embed coordinates as `Int`.

The ECS indirection (a `Snake(Vec<Entity>)` resource whose entities carry
`Segment` and `Transform` components) is flattened: the ordered snake list
directly stores one record per entity with its id, `Segment` component and
position; spawning via `Commands` is modelled with a fresh-id counter.
-/

set_option maxRecDepth 4096

namespace Snek

/-- Source constant `HEIGHT_BOXES: u32 = 20`. -/
def HEIGHT_BOXES : Int := 20

/-- Source constant `WIDTH_BOXES: u32 = 10`. -/
def WIDTH_BOXES : Int := 10

/-- Source constant `BOX_SIZE: f32 = 26.` (exact in f32, embedded as Int). -/
def BOX_SIZE : Int := 26

/-- Source enum `Direction { Up, Down, Left, Right }`. -/
inductive Direction : Type where
  | Up : Direction
  | Down : Direction
  | Left : Direction
  | Right : Direction
deriving DecidableEq, Repr

/-- Source `impl Default for Direction` returns `Direction::Up`. -/
def Direction.default : Direction := Direction.Up

/-- The exact 180-degree reverse of a direction (used to state invariant I4;
not itself a source function). -/
def reverseDir : Direction → Direction
  | Direction.Up => Direction.Down
  | Direction.Down => Direction.Up
  | Direction.Left => Direction.Right
  | Direction.Right => Direction.Left

/-- A 2D integer position, embedding `Transform.translation.{x,y}`. -/
@[ext] structure Pos where
  x : Int
  y : Int
deriving DecidableEq, Repr

/-- Source component `Segment { curr_dir: Direction, next_dir: Direction }`. -/
structure Segment where
  curr_dir : Direction
  next_dir : Direction
deriving DecidableEq, Repr

/-- The keyboard keys the two input loops in the source match on:
the four arrow keys, plus `Other` for every other `KeyCode` (which falls
into the `_ => ()` arm). -/
inductive Key : Type where
  | KUp : Key
  | KDown : Key
  | KLeft : Key
  | KRight : Key
  | Other : Key
deriving DecidableEq, Repr

/-- The directional intent of a key, if any (the CommandMap of the spec). -/
def keyDir : Key → Option Direction
  | Key.KUp => some Direction.Up
  | Key.KDown => some Direction.Down
  | Key.KLeft => some Direction.Left
  | Key.KRight => some Direction.Right
  | Key.Other => none

/-- One iteration of the key loop shared verbatim by the source functions
`input` and `update_dir`: the `match (key, head_seg.curr_dir)` block.
Reverse requests are silently dropped; any other arrow key overwrites
`next_dir`; non-arrow keys do nothing. -/
def applyKey (k : Key) (g : Segment) : Segment :=
  match k, g.curr_dir with
  | Key.KUp, Direction.Down => g
  | Key.KLeft, Direction.Right => g
  | Key.KDown, Direction.Up => g
  | Key.KRight, Direction.Left => g
  | Key.KUp, _ => { g with next_dir := Direction.Up }
  | Key.KLeft, _ => { g with next_dir := Direction.Left }
  | Key.KDown, _ => { g with next_dir := Direction.Down }
  | Key.KRight, _ => { g with next_dir := Direction.Right }
  | Key.Other, _ => g

/-- Source system `update_dir`: folds this tick's pressed-key events over the
head segment with the key-match block. -/
def update_dir (keys : List Key) (g : Segment) : Segment :=
  keys.foldl (fun s k => applyKey k s) g

/-- Source GGRS input system `input`: runs the identical key loop on the head
segment (the loop body is textually the same `match` as in `update_dir`),
then returns `BoxInput { inp: input }` where `input` was initialised to `0`
and never written again — the encoded wire byte is the constant `0`. -/
def inputSystem (keys : List Key) (g : Segment) : Segment × Nat :=
  (keys.foldl (fun s k => applyKey k s) g, 0)

/-- One snake entity: its ECS entity id together with its `Segment` and
`Transform` (position) components. -/
structure SegEntity where
  id : Nat
  seg : Segment
  pos : Pos
deriving DecidableEq, Repr

/-- One food entity: its ECS entity id and its `Transform` (position). -/
structure FoodEntity where
  id : Nat
  pos : Pos
deriving DecidableEq, Repr

/-- Source `enum CollisionEvent { Safe, Deadly }`. -/
inductive CollisionEvent : Type where
  | Safe : CollisionEvent
  | Deadly : CollisionEvent
deriving DecidableEq, Repr

/-- The rollback-relevant simulation state: the ordered snake (index 0 is the
head), all foods, the fresh-entity-id counter, and the `AppExit` flag set by
`game_over`. -/
structure FrameState where
  snake : List SegEntity
  foods : List FoodEntity
  nextId : Nat
  exited : Bool
deriving DecidableEq, Repr

/-- Head displacement in `move_snake`: `Up => y += BOX_SIZE`,
`Down => y -= BOX_SIZE`, `Right => x += BOX_SIZE`, `Left => x -= BOX_SIZE`. -/
def moveDelta (d : Direction) (p : Pos) : Pos :=
  match d with
  | Direction.Up => { p with y := p.y + BOX_SIZE }
  | Direction.Down => { p with y := p.y - BOX_SIZE }
  | Direction.Right => { p with x := p.x + BOX_SIZE }
  | Direction.Left => { p with x := p.x - BOX_SIZE }

/-- The head's direction commit in `move_snake`:
`head_seg.curr_dir = head_seg.next_dir`. -/
def commitDir (g : Segment) : Segment :=
  { curr_dir := g.next_dir, next_dir := g.next_dir }

/-- The head update in `move_snake`: advance one cell in `next_dir`, then
commit `next_dir` into `curr_dir`. -/
def advanceEnt (e : SegEntity) : SegEntity :=
  { e with pos := moveDelta e.seg.next_dir e.pos, seg := commitDir e.seg }

/-- One step of the body-shift loop in `move_snake`: entity `b` receives the
`Segment` and `Transform` that entity `a` held before this tick's move,
keeping its own entity id (`*sec_seg = *first_seg; *sec_trans = *first_trans`). -/
def carrySeg (a b : SegEntity) : SegEntity :=
  { b with seg := a.seg, pos := a.pos }

/-- Source system `move_snake`.  The source snapshots all `(Segment,
Transform)` pairs first, then zips the snapshot with `snake.iter().skip(1)`
so that each non-head segment takes its predecessor's pre-move state; finally
the head advances by `next_dir` and commits it.  The source guards the shift
with `if snake.len() > 1`, but for length 0 or 1 the zip is empty anyway, so
the unguarded translation is extensionally identical.  (An empty snake makes
the source panic on `snake.first().unwrap()`; the embedding totalises it to
the empty list — the game never reaches it, per invariant I1.) -/
def move_snake (snake : List SegEntity) : List SegEntity :=
  match snake with
  | [] => []
  | h :: rest => advanceEnt h :: List.zipWith carrySeg (h :: rest) rest

/-- Bevy's `collide_aabb::collide` restricted to what the source passes it:
2D centre positions and box sizes (the source passes `transform.scale.truncate()`,
which is `(1, 1)` for every entity it spawns).  Bevy declares a collision iff
`a_min.x < b_max.x ∧ a_max.x > b_min.x ∧ a_min.y < b_max.y ∧ a_max.y > b_min.y`
with `min = pos - size / 2`, `max = pos + size / 2`; multiplying each strict
inequality by 2 keeps everything in `Int` and is exact. -/
def collide (aPos : Pos) (aSize : Int × Int) (bPos : Pos) (bSize : Int × Int) : Bool :=
  decide (2 * aPos.x - aSize.1 < 2 * bPos.x + bSize.1) &&
  decide (2 * aPos.x + aSize.1 > 2 * bPos.x - bSize.1) &&
  decide (2 * aPos.y - aSize.2 < 2 * bPos.y + bSize.2) &&
  decide (2 * aPos.y + aSize.2 > 2 * bPos.y - bSize.2)

/-- The collision size the source actually passes: `Transform::default().scale`
truncated, i.e. `(1, 1)`. -/
def unitSize : Int × Int := (1, 1)

/-- The wall test in `check_collisions`:
`x.abs() >= BOX_SIZE * WIDTH_BOXES / 2. || y.abs() >= BOX_SIZE * HEIGHT_BOXES / 2.`. -/
def boundaryDeadly (p : Pos) : Bool :=
  decide (BOX_SIZE * WIDTH_BOXES / 2 ≤ |p.x|) ||
  decide (BOX_SIZE * HEIGHT_BOXES / 2 ≤ |p.y|)

/-- Source system `check_collisions`: emits a `Deadly` event if the head is at
or beyond the play-field boundary, one `Deadly` per non-head segment the head
collides with, and one `Safe` per food the head collides with; every collided
food is despawned.  Returns (events in emission order, surviving foods). -/
def check_collisions (headPos : Pos) (bodyPos : List Pos) (foods : List FoodEntity) :
    List CollisionEvent × List FoodEntity :=
  let boundaryEvents := if boundaryDeadly headPos then [CollisionEvent.Deadly] else []
  let bodyEvents := bodyPos.filterMap fun p =>
    if collide headPos unitSize p unitSize then some CollisionEvent.Deadly else none
  let foodEvents := (foods.filter fun f => collide headPos unitSize f.pos unitSize).map
    fun _ => CollisionEvent.Safe
  let remaining := foods.filter fun f => !collide headPos unitSize f.pos unitSize
  (boundaryEvents ++ bodyEvents ++ foodEvents, remaining)

/-- Recogniser for `Safe` events. -/
def isSafeEv : CollisionEvent → Bool
  | CollisionEvent.Safe => true
  | CollisionEvent.Deadly => false

/-- Recogniser for `Deadly` events. -/
def isDeadlyEv : CollisionEvent → Bool
  | CollisionEvent.Safe => false
  | CollisionEvent.Deadly => true

/-- Number of `Safe` events in a tick's event list. -/
def countSafe (evs : List CollisionEvent) : Nat := evs.countP isSafeEv

/-- The body of the `Safe` arm of source system `add_segment`: read the
current tail, compute the new position one cell behind it per the source's
`match tail_seg.curr_dir` (`Up => y - BOX_SIZE`, `Down => y + BOX_SIZE`,
`Left => x + BOX_SIZE`, `Right => x - BOX_SIZE`), spawn a new entity carrying
a copy of the tail's `Segment` (`.insert(*tail_seg)`), and push it onto the
snake.  (An empty snake makes the source panic on `last().unwrap()`; the
embedding totalises it to a no-op.) -/
def grow_one (s : FrameState) : FrameState :=
  match s.snake.getLast? with
  | none => s
  | some tailEnt =>
    let tp := tailEnt.pos
    let newPos : Pos :=
      match tailEnt.seg.curr_dir with
      | Direction.Up => { x := tp.x, y := tp.y - BOX_SIZE }
      | Direction.Down => { x := tp.x, y := tp.y + BOX_SIZE }
      | Direction.Left => { x := tp.x + BOX_SIZE, y := tp.y }
      | Direction.Right => { x := tp.x - BOX_SIZE, y := tp.y }
    { s with
      snake := s.snake ++ [{ id := s.nextId, seg := tailEnt.seg, pos := newPos }],
      nextId := s.nextId + 1 }

/-- Source system `add_segment`: for every collision event of this tick, grow
the snake by one tail segment if the event is `Safe`, else do nothing. -/
def add_segment (events : List CollisionEvent) (s : FrameState) : FrameState :=
  events.foldl
    (fun st e =>
      match e with
      | CollisionEvent.Safe => grow_one st
      | CollisionEvent.Deadly => st)
    s

/-- Source system `game_over`: sends `AppExit` iff some event of this tick is
`Deadly`. -/
def game_over (events : List CollisionEvent) : Bool :=
  events.any isDeadlyEv

/-- One deterministic rollback tick, in the linear order
direction-update, move, collision check, growth, terminal check (the order
the spec prescribes; the source schedule fixes move before collisions and
collisions before growth/terminal and leaves `update_dir` unconstrained — see
the schedule model below).  Returns the post-tick state together with the
tick's collision events. -/
def tickCore (keys : List Key) (s : FrameState) : FrameState × List CollisionEvent :=
  match s.snake with
  | [] => (s, [])
  | h :: rest =>
    let afterDir := { h with seg := update_dir keys h.seg } :: rest
    let moved := move_snake afterDir
    match moved with
    | [] => (s, [])
    | mh :: mrest =>
      let res := check_collisions mh.pos (mrest.map (fun e => e.pos)) s.foods
      let s3 : FrameState := { s with snake := mh :: mrest, foods := res.2 }
      let s4 := add_segment res.1 s3
      ({ s4 with exited := s4.exited || game_over res.1 }, res.1)

/-- The post-tick state of one deterministic rollback tick. -/
def tick (keys : List Key) (s : FrameState) : FrameState :=
  (tickCore keys s).1

/-- Run the deterministic engine over a list of per-tick input batches. -/
def simulate (inputs : List (List Key)) (s : FrameState) : FrameState :=
  inputs.foldl (fun st ks => tick ks st) s

/-- Source startup system `setup`: one head segment at
`(BOX_SIZE / 2, BOX_SIZE / 2)` with both directions `Up`; no food. -/
def setupState : FrameState :=
  { snake := [{ id := 0,
                seg := { curr_dir := Direction.Up, next_dir := Direction.Up },
                pos := { x := 13, y := 13 } }],
    foods := [],
    nextId := 1,
    exited := false }

/-- A position is free iff no entity's `Transform` sits on it (the source
counts transforms with equal translation; we enumerate the segment and food
entities — the only other transform in the world is the 2D camera at the
origin, which can never equal a food candidate `26 * k + 13`). -/
def isFree (p : Pos) (s : FrameState) : Bool :=
  s.snake.all (fun e => !(decide (e.pos = p))) && s.foods.all (fun f => !(decide (f.pos = p)))

/-- The full-board bail-out of `spawn_food`: the transform count reaches
`WIDTH_BOXES * HEIGHT_BOXES`. -/
def boardFull (s : FrameState) : Bool :=
  decide (WIDTH_BOXES * HEIGHT_BOXES ≤ (s.snake.length : Int) + (s.foods.length : Int))

/-- Source system `spawn_food`.  Each loop iteration draws random cell indices
`cx ∈ [-WIDTH_BOXES/2, WIDTH_BOXES/2)`, `cy ∈ [-HEIGHT_BOXES/2, HEIGHT_BOXES/2)`
and forms the candidate `(BOX_SIZE * cx + BOX_SIZE/2, BOX_SIZE * cy + BOX_SIZE/2)`;
if the board is full it breaks, else if no transform occupies the candidate it
spawns a food there and breaks, else it loops.  The unbounded random loop is
embedded by passing the drawn cell-index sequence explicitly; an exhausted
sequence models a loop that has not yet terminated. -/
def spawn_food : List (Int × Int) → FrameState → FrameState
  | [], s => s
  | c :: rest, s =>
    if boardFull s then s
    else
      let p : Pos := { x := BOX_SIZE * c.1 + BOX_SIZE / 2, y := BOX_SIZE * c.2 + BOX_SIZE / 2 }
      if isFree p s then
        { s with foods := s.foods ++ [{ id := s.nextId, pos := p }], nextId := s.nextId + 1 }
      else spawn_food rest s

/-! The rollback schedule of `main` (the `with_rollback_schedule` call): five
systems in one parallel `SystemStage`, with the only declared ordering
constraints `check_collisions.after(move_snake)`, `add_segment.after(check_collisions)`
and `game_over.after(check_collisions)`. -/

/-- The five systems of the rollback stage. -/
inductive SystemId : Type where
  | moveSnakeSys : SystemId
  | updateDirSys : SystemId
  | checkCollisionsSys : SystemId
  | addSegmentSys : SystemId
  | gameOverSys : SystemId
deriving DecidableEq, Repr

/-- The ordering constraints declared in the source schedule, as
(before, after) pairs: `.after(x)` on system `y` yields `(x, y)`. -/
def scheduleEdges : List (SystemId × SystemId) :=
  [(SystemId.moveSnakeSys, SystemId.checkCollisionsSys),
   (SystemId.checkCollisionsSys, SystemId.addSegmentSys),
   (SystemId.checkCollisionsSys, SystemId.gameOverSys)]

/-- Direct successors of a system in the declared constraint graph. -/
def succsOf (a : SystemId) : List SystemId :=
  (scheduleEdges.filter (fun e => e.1 = a)).map (fun e => e.2)

/-- Bounded reachability in the constraint graph. -/
def reachableIn : Nat → SystemId → SystemId → Bool
  | 0, _, _ => false
  | n + 1, a, b => (succsOf a).any (fun c => decide (c = b) || reachableIn n c b)

/-- System `a` is forced to run before system `b` iff the declared constraints
transitively order them (five systems, so fuel 5 reaches every path). -/
def mustPrecede (a b : SystemId) : Bool :=
  reachableIn 5 a b

/-! ### Named intermediate results of a tick (proof scaffolding; each is
definitionally equal to the corresponding subterm of `tickCore`) -/

/-- The snake after this tick's direction update and move, for a non-empty
snake destructured as head and rest. -/
def movedSnake (keys : List Key) (hd : SegEntity) (rest : List SegEntity) : List SegEntity :=
  move_snake ({ hd with seg := update_dir keys hd.seg } :: rest)

/-- The head position after this tick's move. -/
def headPosAfter (keys : List Key) (hd : SegEntity) : Pos :=
  moveDelta (update_dir keys hd.seg).next_dir hd.pos

/-- The collision result (events, surviving foods) of this tick. -/
def tickCheck (keys : List Key) (hd : SegEntity) (rest : List SegEntity)
    (fo : List FoodEntity) : List CollisionEvent × List FoodEntity :=
  check_collisions (headPosAfter keys hd)
    ((movedSnake keys hd rest).tail.map (fun e => e.pos)) fo

/-! ### Invariants used to state the claims -/

/-- The chain relation between consecutive snake entities: the successor sits
one cell behind its predecessor along the predecessor's travel direction.
It holds of every reachable snake and justifies the growth-cell freshness
argument. -/
def chainRel (a b : SegEntity) : Prop :=
  b.pos = moveDelta (reverseDir a.seg.curr_dir) a.pos

/-- The reachable-state invariant bundle: non-empty snake (I1), consecutive
segments chained one cell apart, foods disjoint from all segments (I3), and
pairwise-distinct food positions. -/
def GoodState (s : FrameState) : Prop :=
  s.snake ≠ [] ∧
  List.Chain' chainRel s.snake ∧
  (∀ f ∈ s.foods, f.pos ∉ s.snake.map (fun e => e.pos)) ∧
  (s.foods.map (fun f => f.pos)).Nodup

/-! ### Helper lemmas -/

/-- With the unit sizes the source passes, bevy's AABB test degenerates to
position equality on the cell grid. -/
theorem collide_unit_iff (p q : Pos) : collide p unitSize q unitSize = true ↔ p = q := by
  simp only [collide, unitSize, Bool.and_eq_true, decide_eq_true_eq]
  constructor
  · rintro ⟨⟨⟨h1, h2⟩, h3⟩, h4⟩
    ext <;> omega
  · rintro rfl
    omega

/-- Stepping back from a just-advanced position returns to the start. -/
theorem moveDelta_reverse (d : Direction) (p : Pos) :
    moveDelta (reverseDir d) (moveDelta d p) = p := by
  cases d <;> simp [moveDelta, reverseDir]

/-- The key-match block never changes `curr_dir`. -/
theorem applyKey_curr (k : Key) (g : Segment) :
    (applyKey k g).curr_dir = g.curr_dir := by
  rcases g with ⟨c, n⟩
  cases k <;> cases c <;> rfl

/-- `update_dir` never changes `curr_dir`. -/
theorem update_dir_curr (keys : List Key) (g : Segment) :
    (update_dir keys g).curr_dir = g.curr_dir := by
  induction keys generalizing g with
  | nil => rfl
  | cons k ks ih =>
      show (update_dir ks (applyKey k g)).curr_dir = g.curr_dir
      rw [ih, applyKey_curr]

/-- The key-match block preserves invariant I4 on a segment. -/
theorem applyKey_no_reverse (k : Key) (g : Segment)
    (h : g.next_dir ≠ reverseDir g.curr_dir) :
    (applyKey k g).next_dir ≠ reverseDir (applyKey k g).curr_dir := by
  rcases g with ⟨c, n⟩
  cases k <;> cases c <;> simp_all [applyKey, reverseDir]

/-- `update_dir` preserves invariant I4 on a segment. -/
theorem update_dir_no_reverse (keys : List Key) (g : Segment)
    (h : g.next_dir ≠ reverseDir g.curr_dir) :
    (update_dir keys g).next_dir ≠ reverseDir (update_dir keys g).curr_dir := by
  induction keys generalizing g with
  | nil => exact h
  | cons k ks ih =>
      show (update_dir ks (applyKey k g)).next_dir ≠ _
      exact ih _ (applyKey_no_reverse k g h)

/-- Indexing into the body-shift zip: position `i` of the zip combines
position `i` of each operand. -/
theorem zip_carry_getElem? (l l' : List SegEntity) (i : Nat) :
    (List.zipWith carrySeg l l')[i]? =
      Option.bind l[i]? (fun a => Option.map (carrySeg a) l'[i]?) := by
  induction l generalizing l' i with
  | nil => simp
  | cons a as ih =>
      cases l' with
      | nil => simp
      | cons b bs =>
          cases i with
          | zero => simp
          | succ j => simpa using ih bs j

/-- The positions of the body-shift zip are the operand's leading positions. -/
theorem zip_carry_map_pos (l l' : List SegEntity) :
    (List.zipWith carrySeg l l').map (fun e => e.pos) =
      (l.map (fun e => e.pos)).take l'.length := by
  induction l generalizing l' with
  | nil => simp
  | cons a as ih =>
      cases l' with
      | nil => simp
      | cons b bs => simp [carrySeg, ih]

/-- The entity ids of the body-shift zip are the second operand's ids, when
the first operand is at least as long. -/
theorem zip_carry_map_id (l l' : List SegEntity) (h : l'.length ≤ l.length) :
    (List.zipWith carrySeg l l').map (fun e => e.id) = l'.map (fun e => e.id) := by
  induction l generalizing l' with
  | nil => cases l' with
           | nil => simp
           | cons b bs => simp at h
  | cons a as ih =>
      cases l' with
      | nil => simp
      | cons b bs =>
          simp only [List.length_cons, Nat.add_le_add_iff_right] at h
          simp [carrySeg, ih bs h]

/-- `add_segment` is `grow_one` iterated once per `Safe` event. -/
theorem add_segment_eq_iterate (events : List CollisionEvent) (s : FrameState) :
    add_segment events s = grow_one^[countSafe events] s := by
  induction events generalizing s with
  | nil => rfl
  | cons e es ih =>
      cases e with
      | Safe =>
          show add_segment es (grow_one s) = _
          rw [ih]
          have : countSafe (CollisionEvent.Safe :: es) = countSafe es + 1 := by
            simp [countSafe, isSafeEv]
          rw [this, Function.iterate_succ_apply]
      | Deadly =>
          show add_segment es s = _
          rw [ih]
          have : countSafe (CollisionEvent.Deadly :: es) = countSafe es := by
            simp [countSafe, isSafeEv]
          rw [this]

/-- The growth cell computed in `add_segment` is one cell behind the tail,
opposite the tail's current direction. -/
theorem grow_one_snake (s : FrameState) (t : SegEntity)
    (h : s.snake.getLast? = some t) :
    (grow_one s).snake =
      s.snake ++ [{ id := s.nextId, seg := t.seg,
                    pos := moveDelta (reverseDir t.seg.curr_dir) t.pos }] := by
  rw [grow_one, h]
  rcases t with ⟨i, ⟨c, n⟩, ⟨px, py⟩⟩
  cases c <;> simp [moveDelta, reverseDir]

/-- `grow_one` leaves the foods unchanged. -/
theorem grow_one_foods (s : FrameState) : (grow_one s).foods = s.foods := by
  rw [grow_one]
  cases h : s.snake.getLast? <;> rfl

/-- `add_segment` leaves the foods unchanged. -/
theorem add_segment_foods (events : List CollisionEvent) (s : FrameState) :
    (add_segment events s).foods = s.foods := by
  rw [add_segment_eq_iterate]
  induction countSafe events generalizing s with
  | zero => rfl
  | succ n ih => rw [Function.iterate_succ_apply, ih, grow_one_foods]

/-- The entity ids of a moved snake are unchanged (in order). -/
theorem move_snake_map_id (h : SegEntity) (rest : List SegEntity) :
    (move_snake (h :: rest)).map (fun e => e.id) = (h :: rest).map (fun e => e.id) := by
  simp only [move_snake, List.map_cons]
  rw [zip_carry_map_id (h :: rest) rest (by simp)]
  rfl

/-- The positions of a moved snake: the advanced head, then the old positions
with the last dropped. -/
theorem move_snake_map_pos (h : SegEntity) (rest : List SegEntity) :
    (move_snake (h :: rest)).map (fun e => e.pos) =
      moveDelta h.seg.next_dir h.pos :: ((h :: rest).map (fun e => e.pos)).take rest.length := by
  simp only [move_snake, List.map_cons]
  rw [zip_carry_map_pos (h :: rest) rest]
  rfl

/-- The body-shift zip of a chained snake is itself chained. -/
theorem chain_zip_carry (l : List SegEntity) (a : SegEntity)
    (h : List.Chain' chainRel (a :: l)) :
    List.Chain' chainRel (List.zipWith carrySeg (a :: l) l) := by
  induction l generalizing a with
  | nil => simp
  | cons b t ih =>
      have hab : chainRel a b := (List.chain'_cons.mp h).1
      have hbt : List.Chain' chainRel (b :: t) := (List.chain'_cons.mp h).2
      cases t with
      | nil => simp [List.chain'_singleton]
      | cons c t' =>
          have hz : List.zipWith carrySeg (a :: b :: c :: t') (b :: c :: t') =
              carrySeg a b :: List.zipWith carrySeg (b :: c :: t') (c :: t') := rfl
          rw [hz]
          have hrec := ih b hbt
          have hz2 : List.zipWith carrySeg (b :: c :: t') (c :: t') =
              carrySeg b c :: List.zipWith carrySeg (c :: t') t' := rfl
          rw [hz2] at hrec ⊢
          refine List.chain'_cons.mpr ⟨?_, hrec⟩
          show (carrySeg b c).pos = moveDelta (reverseDir (carrySeg a b).seg.curr_dir) (carrySeg a b).pos
          simpa [carrySeg] using hab

/-- Moving a chained snake yields a chained snake. -/
theorem chain_move_snake (a : SegEntity) (l : List SegEntity)
    (h : List.Chain' chainRel (a :: l)) :
    List.Chain' chainRel (move_snake (a :: l)) := by
  cases l with
  | nil => simp [move_snake, List.chain'_singleton]
  | cons b t =>
      have hab : chainRel a b := (List.chain'_cons.mp h).1
      show List.Chain' chainRel
        (advanceEnt a :: carrySeg a b :: List.zipWith carrySeg (b :: t) t)
      refine List.chain'_cons.mpr ⟨?_, ?_⟩
      · show (carrySeg a b).pos =
          moveDelta (reverseDir (advanceEnt a).seg.curr_dir) (advanceEnt a).pos
        simp [carrySeg, advanceEnt, commitDir, moveDelta_reverse]
      · have hz : List.zipWith carrySeg (a :: b :: t) (b :: t) =
            carrySeg a b :: List.zipWith carrySeg (b :: t) t := rfl
        have := chain_zip_carry (b :: t) a h
        rwa [hz] at this

/-- The cell one step behind the moved snake's tail is one of the pre-move
segment positions (it is exactly the pre-move tail position). -/
theorem move_last_behind (l : List SegEntity) (a : SegEntity)
    (hch : List.Chain' chainRel (a :: l)) (t : SegEntity)
    (hlast : (move_snake (a :: l)).getLast? = some t) :
    moveDelta (reverseDir t.seg.curr_dir) t.pos ∈ (a :: l).map (fun e => e.pos) := by
  induction l generalizing a with
  | nil =>
      simp only [move_snake, List.zipWith, List.getLast?_singleton, Option.some.injEq] at hlast
      subst hlast
      simp [advanceEnt, commitDir, moveDelta_reverse]
  | cons b t' ih =>
      have hab : chainRel a b := (List.chain'_cons.mp hch).1
      have hbt : List.Chain' chainRel (b :: t') := (List.chain'_cons.mp hch).2
      cases t' with
      | nil =>
          have : move_snake (a :: [b]) = [advanceEnt a, carrySeg a b] := rfl
          rw [this] at hlast
          simp only [List.getLast?_cons_cons, List.getLast?_singleton,
            Option.some.injEq] at hlast
          subst hlast
          have : (carrySeg a b).pos = a.pos ∧ (carrySeg a b).seg = a.seg := ⟨rfl, rfl⟩
          rw [List.map_cons, List.map_cons]
          have hb : b.pos = moveDelta (reverseDir a.seg.curr_dir) a.pos := hab
          simp only [carrySeg]
          rw [← hb]
          simp
      | cons c t'' =>
          have hm : move_snake (a :: b :: c :: t'') =
              advanceEnt a :: carrySeg a b :: List.zipWith carrySeg (b :: c :: t'') (c :: t'') := rfl
          have hm2 : move_snake (b :: c :: t'') =
              advanceEnt b :: List.zipWith carrySeg (b :: c :: t'') (c :: t'') := rfl
          have hz : List.zipWith carrySeg (b :: c :: t'') (c :: t'') =
              carrySeg b c :: List.zipWith carrySeg (c :: t'') t'' := rfl
          rw [hm] at hlast
          rw [List.getLast?_cons_cons] at hlast
          rw [hz, List.getLast?_cons_cons] at hlast
          have hlast2 : (move_snake (b :: c :: t'')).getLast? = some t := by
            rw [hm2, hz, List.getLast?_cons_cons]
            exact hlast
          have := ih b hbt hlast2
          simp only [List.map_cons] at this ⊢
          exact List.mem_cons_of_mem _ this

/-- Unfolding of one tick over an explicitly destructured state. -/
theorem tickCore_cons (keys : List Key) (h : SegEntity) (rest : List SegEntity)
    (fo : List FoodEntity) (ni : Nat) (ex : Bool) :
    tickCore keys { snake := h :: rest, foods := fo, nextId := ni, exited := ex } =
      (let hd : SegEntity := { h with seg := update_dir keys h.seg }
       let mh := advanceEnt hd
       let mrest := List.zipWith carrySeg (hd :: rest) rest
       let res := check_collisions mh.pos (mrest.map (fun e => e.pos)) fo
       let s4 := add_segment res.1
         { snake := mh :: mrest, foods := res.2, nextId := ni, exited := ex }
       ({ s4 with exited := s4.exited || game_over res.1 }, res.1)) := rfl

/-- Projection of the tick's event list through the scaffolding names. -/
theorem tickCore_snd (keys : List Key) (hd : SegEntity) (rest : List SegEntity)
    (fo : List FoodEntity) (ni : Nat) (ex : Bool) :
    (tickCore keys { snake := hd :: rest, foods := fo, nextId := ni, exited := ex }).2 =
      (tickCheck keys hd rest fo).1 := rfl

/-- Decomposition of one tick through the scaffolding names. -/
theorem tick_decomp (keys : List Key) (hd : SegEntity) (rest : List SegEntity)
    (fo : List FoodEntity) (ni : Nat) (ex : Bool) :
    tick keys { snake := hd :: rest, foods := fo, nextId := ni, exited := ex } =
      { add_segment (tickCheck keys hd rest fo).1
          { snake := movedSnake keys hd rest, foods := (tickCheck keys hd rest fo).2,
            nextId := ni, exited := ex } with
        exited :=
          (add_segment (tickCheck keys hd rest fo).1
            { snake := movedSnake keys hd rest, foods := (tickCheck keys hd rest fo).2,
              nextId := ni, exited := ex }).exited ||
          game_over (tickCheck keys hd rest fo).1 } := rfl

/-- When no event is `Safe`, `add_segment` is the identity. -/
theorem add_segment_no_safe (events : List CollisionEvent) (s : FrameState)
    (h : CollisionEvent.Safe ∉ events) : add_segment events s = s := by
  rw [add_segment_eq_iterate]
  have : countSafe events = 0 := by
    simp only [countSafe, List.countP_eq_zero]
    intro e he
    cases e with
    | Safe => exact absurd he h
    | Deadly => simp [isSafeEv]
  rw [this]
  rfl

/-- `add_segment` never touches the exit flag. -/
theorem add_segment_exited (events : List CollisionEvent) (s : FrameState) :
    (add_segment events s).exited = s.exited := by
  rw [add_segment_eq_iterate]
  induction countSafe events generalizing s with
  | zero => rfl
  | succ n ih =>
      rw [Function.iterate_succ_apply, ih]
      rw [grow_one]
      cases s.snake.getLast? <;> rfl

/-- With pairwise-distinct food positions, at most one food collides with the
head. -/
theorem filter_pos_eq_len_le_one (fo : List FoodEntity) (p : Pos)
    (hnd : (fo.map (fun f => f.pos)).Nodup) :
    (fo.filter fun f => collide p unitSize f.pos unitSize).length ≤ 1 := by
  induction fo with
  | nil => simp
  | cons f fs ih =>
      rw [List.map_cons, List.nodup_cons] at hnd
      rw [List.filter_cons]
      by_cases hc : collide p unitSize f.pos unitSize = true
      · rw [if_pos hc]
        have hnil : (fs.filter fun g => collide p unitSize g.pos unitSize) = [] := by
          rw [List.filter_eq_nil_iff]
          intro g hg hcg
          have h1 : p = f.pos := (collide_unit_iff _ _).mp hc
          have h2 : p = g.pos := (collide_unit_iff _ _).mp hcg
          apply hnd.1
          have hfg : f.pos = g.pos := by rw [← h1, h2]
          rw [hfg]
          exact List.mem_map_of_mem (fun x => x.pos) hg
        rw [hnil]
        simp
      · rw [if_neg hc]
        exact ih hnd.2

/-- With pairwise-distinct food positions, a tick emits at most one Safe
event (the boundary and body checks emit only Deadly). -/
theorem countSafe_check_le_one (p : Pos) (bp : List Pos) (fo : List FoodEntity)
    (hnd : (fo.map (fun f => f.pos)).Nodup) :
    countSafe (check_collisions p bp fo).1 ≤ 1 := by
  have h1 : (check_collisions p bp fo).1 =
      (if boundaryDeadly p then [CollisionEvent.Deadly] else []) ++
        (bp.filterMap fun q =>
          if collide p unitSize q unitSize then some CollisionEvent.Deadly else none) ++
        ((fo.filter fun f => collide p unitSize f.pos unitSize).map
          fun _ => CollisionEvent.Safe) := rfl
  rw [h1, countSafe, List.countP_append, List.countP_append]
  have hA : List.countP isSafeEv
      (if boundaryDeadly p then [CollisionEvent.Deadly] else []) = 0 := by
    split <;> decide
  have hB : List.countP isSafeEv (bp.filterMap fun q =>
      if collide p unitSize q unitSize then some CollisionEvent.Deadly else none) = 0 := by
    rw [List.countP_eq_zero]
    intro e he
    obtain ⟨q, hq, hqe⟩ := List.mem_filterMap.mp he
    split at hqe
    · cases Option.some.inj hqe
      simp [isSafeEv]
    · exact absurd hqe (by simp)
  have hC : List.countP isSafeEv
      ((fo.filter fun f => collide p unitSize f.pos unitSize).map
        fun _ => CollisionEvent.Safe) =
      (fo.filter fun f => collide p unitSize f.pos unitSize).length := by
    rw [List.countP_map]
    simp [Function.comp, isSafeEv]
  rw [hA, hB, hC]
  simpa using filter_pos_eq_len_le_one fo p hnd

/-- Growth-step preservation: from a moved snake that is non-empty and
chained, whose positions are the new head position or old segment positions,
whose behind-the-tail cell is an old segment position, and foods that avoid
both the new head position and all old positions with distinct positions,
at most one Safe event keeps the state good. -/
theorem good_after_growth (np : Pos) (M : List SegEntity) (oldPos : List Pos)
    (fo2 : List FoodEntity) (ni : Nat) (ex : Bool) (evs : List CollisionEvent)
    (hMne : M ≠ [])
    (hchM : List.Chain' chainRel M)
    (hMpos : ∀ q ∈ M.map (fun e => e.pos), q = np ∨ q ∈ oldPos)
    (hback : ∀ t, M.getLast? = some t →
        moveDelta (reverseDir t.seg.curr_dir) t.pos ∈ oldPos)
    (hfo2 : ∀ f ∈ fo2, f.pos ≠ np ∧ f.pos ∉ oldPos)
    (hnd2 : (fo2.map (fun f => f.pos)).Nodup)
    (hcnt : countSafe evs ≤ 1) :
    GoodState (add_segment evs
      { snake := M, foods := fo2, nextId := ni, exited := ex }) := by
  have hdisjM : ∀ f ∈ fo2, f.pos ∉ M.map (fun e => e.pos) := by
    intro f hf hmem
    rcases hMpos _ hmem with h | h
    · exact (hfo2 f hf).1 h
    · exact (hfo2 f hf).2 h
  rw [add_segment_eq_iterate]
  cases hc : countSafe evs with
  | zero => exact ⟨hMne, hchM, hdisjM, hnd2⟩
  | succ n =>
      have hn : n = 0 := by omega
      subst hn
      rw [Function.iterate_one]
      cases hlast : M.getLast? with
      | none => exact absurd (List.getLast?_eq_none_iff.mp hlast) hMne
      | some t =>
          have hsnake := grow_one_snake
            { snake := M, foods := fo2, nextId := ni, exited := ex } t hlast
          have hfoods := grow_one_foods
            { snake := M, foods := fo2, nextId := ni, exited := ex }
          have hbmem := hback t hlast
          refine ⟨?_, ?_, ?_, ?_⟩
          · rw [hsnake]
            simp
          · rw [hsnake]
            refine List.Chain'.append hchM (List.chain'_singleton _) ?_
            intro x hx y hy
            rw [hlast] at hx
            obtain rfl : t = x := Option.some.inj hx
            obtain rfl : _ = y := Option.some.inj hy
            rfl
          · rw [hfoods, hsnake]
            intro f hf hmem
            rw [List.map_append] at hmem
            rcases List.mem_append.mp hmem with hm | hm
            · exact hdisjM f hf hm
            · simp only [List.map_cons, List.map_nil, List.mem_singleton] at hm
              apply (hfo2 f hf).2
              rw [hm]
              exact hbmem
          · rw [hfoods]
            exact hnd2

/-- A direction update on the head preserves the chain invariant (it touches
only `next_dir`). -/
theorem chain_update_head (keys : List Key) (hd : SegEntity) (rest : List SegEntity)
    (h : List.Chain' chainRel (hd :: rest)) :
    List.Chain' chainRel ({ hd with seg := update_dir keys hd.seg } :: rest) := by
  cases rest with
  | nil => exact List.chain'_singleton _
  | cons b t =>
      refine List.chain'_cons.mpr ⟨?_, (List.chain'_cons.mp h).2⟩
      have h1 : chainRel hd b := (List.chain'_cons.mp h).1
      show b.pos = moveDelta (reverseDir ((update_dir keys hd.seg).curr_dir)) hd.pos
      rw [update_dir_curr keys hd.seg]
      exact h1

/-- One deterministic tick preserves the reachable-state invariants, food
exclusivity (I3) included. -/
theorem good_tick (keys : List Key) (s : FrameState) (hg : GoodState s) :
    GoodState (tick keys s) := by
  obtain ⟨hne, hch, hdisj, hnd⟩ := hg
  rcases s with ⟨sn, fo, ni, ex⟩
  cases sn with
  | nil => exact absurd rfl hne
  | cons hd rest =>
      have hch' : List.Chain' chainRel ({ hd with seg := update_dir keys hd.seg } :: rest) :=
        chain_update_head keys hd rest hch
      have hMeq : movedSnake keys hd rest =
          advanceEnt { hd with seg := update_dir keys hd.seg } ::
            List.zipWith carrySeg ({ hd with seg := update_dir keys hd.seg } :: rest) rest := rfl
      have hMne : movedSnake keys hd rest ≠ [] := by
        rw [hMeq]
        simp
      have hchM : List.Chain' chainRel (movedSnake keys hd rest) :=
        chain_move_snake _ rest hch'
      have hMpos : ∀ q ∈ (movedSnake keys hd rest).map (fun e => e.pos),
          q = headPosAfter keys hd ∨ q ∈ (hd :: rest).map (fun e => e.pos) := by
        intro q hq
        rw [movedSnake, move_snake_map_pos] at hq
        rcases List.mem_cons.mp hq with h | h
        · left
          exact h
        · right
          exact List.take_subset _ _ h
      have hback : ∀ t, (movedSnake keys hd rest).getLast? = some t →
          moveDelta (reverseDir t.seg.curr_dir) t.pos ∈
            (hd :: rest).map (fun e => e.pos) := by
        intro t ht
        exact move_last_behind rest _ hch' t ht
      have hfo2 : ∀ f ∈ (tickCheck keys hd rest fo).2,
          f.pos ≠ headPosAfter keys hd ∧
            f.pos ∉ (hd :: rest).map (fun e => e.pos) := by
        intro f hf
        have hf2 : f ∈ fo.filter
            (fun g => !collide (headPosAfter keys hd) unitSize g.pos unitSize) := hf
        have hmem := (List.mem_filter.mp hf2).1
        have hcol := (List.mem_filter.mp hf2).2
        constructor
        · intro heq
          have hc : collide (headPosAfter keys hd) unitSize f.pos unitSize = true :=
            (collide_unit_iff _ _).mpr heq.symm
          rw [hc] at hcol
          simp at hcol
        · exact hdisj f hmem
      have hnd2 : ((tickCheck keys hd rest fo).2.map (fun f => f.pos)).Nodup := by
        have hsub : List.Sublist ((tickCheck keys hd rest fo).2.map (fun f => f.pos))
            (fo.map (fun f => f.pos)) :=
          List.Sublist.map _ (List.filter_sublist fo)
        exact List.Nodup.sublist hsub hnd
      have hcnt : countSafe (tickCheck keys hd rest fo).1 ≤ 1 :=
        countSafe_check_le_one _ _ fo hnd
      exact good_after_growth (headPosAfter keys hd) (movedSnake keys hd rest)
        ((hd :: rest).map (fun e => e.pos)) (tickCheck keys hd rest fo).2 ni ex
        (tickCheck keys hd rest fo).1 hMne hchM hMpos hback hfo2 hnd2 hcnt

/-- The food spawner preserves the reachable-state invariants: it only places
food on a transform-free cell. -/
theorem good_spawn (cs : List (Int × Int)) (s : FrameState) (hg : GoodState s) :
    GoodState (spawn_food cs s) := by
  induction cs generalizing s with
  | nil => exact hg
  | cons c rest ih =>
      rw [spawn_food]
      split
      · exact hg
      · show GoodState
          (if isFree { x := BOX_SIZE * c.1 + BOX_SIZE / 2,
                       y := BOX_SIZE * c.2 + BOX_SIZE / 2 } s = true then
            { snake := s.snake,
              foods := s.foods ++
                [{ id := s.nextId,
                   pos := { x := BOX_SIZE * c.1 + BOX_SIZE / 2,
                            y := BOX_SIZE * c.2 + BOX_SIZE / 2 } }],
              nextId := s.nextId + 1, exited := s.exited }
          else spawn_food rest s)
        split
        · rename_i hfree
          obtain ⟨hne, hch, hdisj, hnd⟩ := hg
          have hfree1 := (Bool.and_eq_true _ _).mp hfree
          have hsegs : ∀ e ∈ s.snake, e.pos ≠
              ({ x := BOX_SIZE * c.1 + BOX_SIZE / 2,
                 y := BOX_SIZE * c.2 + BOX_SIZE / 2 } : Pos) := by
            intro e he
            have := List.all_eq_true.mp hfree1.1 e he
            simpa using this
          have hfoodsfree : ∀ f ∈ s.foods, f.pos ≠
              ({ x := BOX_SIZE * c.1 + BOX_SIZE / 2,
                 y := BOX_SIZE * c.2 + BOX_SIZE / 2 } : Pos) := by
            intro f hfm
            have := List.all_eq_true.mp hfree1.2 f hfm
            simpa using this
          refine ⟨hne, hch, ?_, ?_⟩
          · intro f hfm
            rcases List.mem_append.mp hfm with hm | hm
            · exact hdisj f hm
            · rw [List.mem_singleton] at hm
              subst hm
              intro hmem
              obtain ⟨e, he, hpe⟩ := List.mem_map.mp hmem
              exact hsegs e he hpe
          · rw [List.map_append]
            rw [List.nodup_append]
            refine ⟨hnd, by simp, ?_⟩
            intro q hq hq2
            simp only [List.map_cons, List.map_nil, List.mem_singleton] at hq2
            obtain ⟨f, hfm, hpf⟩ := List.mem_map.mp hq
            exact hfoodsfree f hfm (by rw [hpf, hq2])
        · exact ih s hg

/-- The initial state satisfies the reachable-state invariants. -/
theorem good_setup : GoodState setupState := by
  refine ⟨by simp [setupState], ?_, by simp [setupState], by simp [setupState]⟩
  exact List.chain'_singleton _

/-! ### Claims -/

/-- C1: for any fixed input sequence, running the deterministic per-tick
transition (direction update, move, collision check, growth, terminal check)
twice from the same initial FrameState yields bit-identical FrameStates at
every tick; the engine is the pure function `tick` of the prior state and
that tick's inputs — no clock, no randomness enters the rollback path. -/
theorem tick_determinism (i1 i2 : List (List Key)) (s1 s2 : FrameState)
    (hinp : i1 = i2) (hst : s1 = s2) :
    ∀ n : Nat, simulate (i1.take n) s1 = simulate (i2.take n) s2 := by
  subst hinp
  subst hst
  intro n
  rfl

/-- Witness for C1 at a concrete run of two ticks. -/
theorem tick_determinism_witness :
    simulate ([[Key.KLeft], []].take 2) setupState =
      simulate ([[Key.KLeft], []].take 2) setupState :=
  tick_determinism [[Key.KLeft], []] [[Key.KLeft], []] setupState setupState rfl rfl 2

/-- C2: simulating ticks 0..N without interruption equals simulating 0..k,
snapshotting the FrameState (which carries the whole simulation state: snake
segment order, every segment's position and direction, and food positions),
restoring it, and resimulating k+1..N on the same inputs. -/
theorem rollback_equivalence (inputs : List (List Key)) (s : FrameState) (k : Nat) :
    simulate inputs s = simulate (inputs.drop k) (simulate (inputs.take k) s) := by
  conv_lhs => rw [← List.take_append_drop k inputs]
  rw [simulate, List.foldl_append]
  rfl

/-- C6: the declared rollback-schedule constraints force move before collision
check and collision check before growth and terminal check, but they do NOT
order the direction update anywhere: `update_dir` may legally run after
`move_snake` in a tick, so the claimed fixed five-step order (direction
update strictly first) is not established by the code. -/
theorem schedule_update_dir_unordered :
    mustPrecede SystemId.updateDirSys SystemId.moveSnakeSys = false ∧
    mustPrecede SystemId.moveSnakeSys SystemId.updateDirSys = false ∧
    mustPrecede SystemId.moveSnakeSys SystemId.checkCollisionsSys = true ∧
    mustPrecede SystemId.checkCollisionsSys SystemId.addSegmentSys = true ∧
    mustPrecede SystemId.checkCollisionsSys SystemId.gameOverSys = true := by
  decide

/-- C9: the networked input path does not encode the pressed-key intent: the
byte returned by the `input` system is the constant `0` whatever keys are
pressed, so two distinct intents (Left and Right) encode identically and no
decoder can round-trip them. -/
theorem input_byte_constant :
    (∀ (keys : List Key) (g : Segment), (inputSystem keys g).2 = 0) ∧
    (inputSystem [Key.KLeft]
        { curr_dir := Direction.Up, next_dir := Direction.Up }).2 =
      (inputSystem [Key.KRight]
        { curr_dir := Direction.Up, next_dir := Direction.Up }).2 :=
  ⟨fun _ _ => rfl, rfl⟩

/-- C3: in the move step every non-head segment takes the position and
direction its predecessor held before this tick's move (shift-register), the
head advances one cell in `next_dir` and commits `next_dir` into `curr_dir`;
the length-3 all-Up snake at cell rows 2,1,0 ends at rows 3,2,1, and a
single-segment snake simply advances its head. -/
theorem move_shift_register :
    (∀ (sn : List SegEntity) (i : Nat) (a b : SegEntity),
        sn[i]? = some a → sn[i + 1]? = some b →
        (move_snake sn)[i + 1]? = some { id := b.id, seg := a.seg, pos := a.pos }) ∧
    (∀ (sn : List SegEntity) (a : SegEntity),
        sn[0]? = some a →
        (move_snake sn)[0]? = some
          { id := a.id,
            seg := { curr_dir := a.seg.next_dir, next_dir := a.seg.next_dir },
            pos := moveDelta a.seg.next_dir a.pos }) ∧
    move_snake
        [{ id := 0, seg := { curr_dir := Direction.Up, next_dir := Direction.Up },
           pos := { x := 0, y := 52 } },
         { id := 1, seg := { curr_dir := Direction.Up, next_dir := Direction.Up },
           pos := { x := 0, y := 26 } },
         { id := 2, seg := { curr_dir := Direction.Up, next_dir := Direction.Up },
           pos := { x := 0, y := 0 } }] =
      [{ id := 0, seg := { curr_dir := Direction.Up, next_dir := Direction.Up },
         pos := { x := 0, y := 78 } },
       { id := 1, seg := { curr_dir := Direction.Up, next_dir := Direction.Up },
         pos := { x := 0, y := 52 } },
       { id := 2, seg := { curr_dir := Direction.Up, next_dir := Direction.Up },
         pos := { x := 0, y := 26 } }] ∧
    (∀ e : SegEntity,
        move_snake [e] =
          [{ id := e.id,
             seg := { curr_dir := e.seg.next_dir, next_dir := e.seg.next_dir },
             pos := moveDelta e.seg.next_dir e.pos }]) := by
  refine ⟨?_, ?_, by decide, fun e => rfl⟩
  · intro sn i a b ha hb
    cases sn with
    | nil => simp at ha
    | cons h rest =>
        show (advanceEnt h :: List.zipWith carrySeg (h :: rest) rest)[i + 1]? = _
        rw [List.getElem?_cons_succ, zip_carry_getElem?, ha]
        rw [List.getElem?_cons_succ] at hb
        rw [hb]
        rfl
  · intro sn a ha
    cases sn with
    | nil => simp at ha
    | cons h rest =>
        simp only [List.getElem?_cons_zero, Option.some.injEq] at ha
        subst ha
        show (advanceEnt h :: List.zipWith carrySeg (h :: rest) rest)[0]? = _
        rw [List.getElem?_cons_zero]
        rfl

/-- Witness for C3 at a concrete two-segment snake and index 0. -/
theorem move_shift_register_witness :
    (move_snake
        [{ id := 0, seg := { curr_dir := Direction.Up, next_dir := Direction.Left },
           pos := { x := 13, y := 39 } },
         { id := 1, seg := { curr_dir := Direction.Up, next_dir := Direction.Up },
           pos := { x := 13, y := 13 } }])[0 + 1]? =
      some { id := 1, seg := { curr_dir := Direction.Up, next_dir := Direction.Left },
             pos := { x := 13, y := 39 } } :=
  move_shift_register.1
    [{ id := 0, seg := { curr_dir := Direction.Up, next_dir := Direction.Left },
       pos := { x := 13, y := 39 } },
     { id := 1, seg := { curr_dir := Direction.Up, next_dir := Direction.Up },
       pos := { x := 13, y := 13 } }]
    0
    { id := 0, seg := { curr_dir := Direction.Up, next_dir := Direction.Left },
      pos := { x := 13, y := 39 } }
    { id := 1, seg := { curr_dir := Direction.Up, next_dir := Direction.Up },
      pos := { x := 13, y := 13 } }
    rfl rfl

/-- C5: commanding the exact opposite of the head's `curr_dir` never changes
`next_dir` (the key-match block drops it); the local `update_dir` path and the
networked `input` path run the identical key loop; and `next_dir` is never the
exact reverse of `curr_dir` when the move step commits it — the property is
preserved by every direction update, by the commit itself, and holds of the
initial head segment. -/
theorem reverse_rejection :
    (∀ (k : Key) (g : Segment),
        keyDir k = some (reverseDir g.curr_dir) → applyKey k g = g) ∧
    (∀ (keys : List Key) (g : Segment), (inputSystem keys g).1 = update_dir keys g) ∧
    (∀ (keys : List Key) (g : Segment),
        g.next_dir ≠ reverseDir g.curr_dir →
        (update_dir keys g).next_dir ≠ reverseDir (update_dir keys g).curr_dir) ∧
    (∀ g : Segment, (commitDir g).next_dir ≠ reverseDir (commitDir g).curr_dir) ∧
    ({ curr_dir := Direction.Up, next_dir := Direction.Up } : Segment).next_dir ≠
      reverseDir ({ curr_dir := Direction.Up, next_dir := Direction.Up } : Segment).curr_dir := by
  refine ⟨?_, fun _ _ => rfl, update_dir_no_reverse, ?_, by decide⟩
  · intro k g h
    rcases g with ⟨c, n⟩
    cases k <;> cases c <;> simp_all [keyDir, reverseDir, applyKey]
  · intro g
    rcases g with ⟨c, n⟩
    cases n <;> simp [commitDir, reverseDir]

/-- Witness for C5: a Down command against an Up-moving head is dropped, and
a fresh Up/Up head keeps I4 through an update. -/
theorem reverse_rejection_witness :
    applyKey Key.KDown { curr_dir := Direction.Up, next_dir := Direction.Up } =
      { curr_dir := Direction.Up, next_dir := Direction.Up } ∧
    (update_dir [Key.KLeft]
        { curr_dir := Direction.Up, next_dir := Direction.Up }).next_dir ≠
      reverseDir (update_dir [Key.KLeft]
        { curr_dir := Direction.Up, next_dir := Direction.Up }).curr_dir :=
  ⟨reverse_rejection.1 Key.KDown { curr_dir := Direction.Up, next_dir := Direction.Up } rfl,
   reverse_rejection.2.2.1 [Key.KLeft]
     { curr_dir := Direction.Up, next_dir := Direction.Up } (by decide)⟩

/-- C7: each Safe collision event makes the growth step append exactly one new
segment, placed at the former tail's position offset one cell opposite the
former tail's direction and inheriting the former tail's `Segment` (both
directions); the snake grows by exactly the number of Safe events. -/
theorem growth_placement :
    (∀ (s : FrameState) (t : SegEntity),
        s.snake.getLast? = some t →
        (add_segment [CollisionEvent.Safe] s).snake =
          s.snake ++ [{ id := s.nextId, seg := t.seg,
                        pos := moveDelta (reverseDir t.seg.curr_dir) t.pos }]) ∧
    (∀ (events : List CollisionEvent) (s : FrameState),
        s.snake ≠ [] →
        (add_segment events s).snake.length = s.snake.length + countSafe events) := by
  constructor
  · intro s t h
    show (grow_one s).snake = _
    exact grow_one_snake s t h
  · intro events s hne
    rw [add_segment_eq_iterate]
    induction countSafe events generalizing s with
    | zero => rfl
    | succ n ih =>
        rw [Function.iterate_succ_apply]
        have hne' : (grow_one s).snake ≠ [] := by
          rw [grow_one]
          cases hl : s.snake.getLast? with
          | none => exact hne
          | some t => simp
        have hlen : (grow_one s).snake.length = s.snake.length + 1 := by
          rw [grow_one]
          cases hl : s.snake.getLast? with
          | none => exact absurd (List.getLast?_eq_none_iff.mp hl) hne
          | some t => simp
        rw [ih (grow_one s) hne', hlen]
        omega

/-- Witness for C7 at the initial one-segment snake. -/
theorem growth_placement_witness :
    (add_segment [CollisionEvent.Safe] setupState).snake =
      setupState.snake ++
        [{ id := 1, seg := { curr_dir := Direction.Up, next_dir := Direction.Up },
           pos := { x := 13, y := -13 } }] ∧
    (add_segment [CollisionEvent.Deadly, CollisionEvent.Safe] setupState).snake.length =
      setupState.snake.length + countSafe [CollisionEvent.Deadly, CollisionEvent.Safe] :=
  ⟨growth_placement.1 setupState
      { id := 0, seg := { curr_dir := Direction.Up, next_dir := Direction.Up },
        pos := { x := 13, y := 13 } } rfl,
   growth_placement.2 [CollisionEvent.Deadly, CollisionEvent.Safe] setupState (by decide)⟩

/-- C10: on any tick that emits no Safe collision event, the snake's ordered
entity list is unchanged (same length, same entities, same order): move,
collision check and terminal check mutate only per-segment position and
direction components, never the snake sequence. -/
theorem no_safe_snake_unchanged (keys : List Key) (s : FrameState)
    (h : CollisionEvent.Safe ∉ (tickCore keys s).2) :
    (tick keys s).snake.map (fun e => e.id) = s.snake.map (fun e => e.id) := by
  rcases s with ⟨sn, fo, ni, ex⟩
  cases sn with
  | nil => rfl
  | cons hd rest =>
      rw [tickCore_snd] at h
      rw [tick_decomp]
      show (add_segment (tickCheck keys hd rest fo).1
          { snake := movedSnake keys hd rest, foods := (tickCheck keys hd rest fo).2,
            nextId := ni, exited := ex }).snake.map (fun e => e.id) =
        (hd :: rest).map (fun e => e.id)
      rw [add_segment_no_safe _ _ h]
      show (movedSnake keys hd rest).map (fun e => e.id) = (hd :: rest).map (fun e => e.id)
      rw [movedSnake, move_snake_map_id]
      rfl

/-- Witness for C10: the first tick from the initial state (no food, no
walls hit) emits no Safe event and keeps the singleton snake. -/
theorem no_safe_snake_unchanged_witness :
    (tick [] setupState).snake.map (fun e => e.id) =
      setupState.snake.map (fun e => e.id) :=
  no_safe_snake_unchanged [] setupState (by decide)

/-- C4 counterexample: the claim predicts that with the boundary at B cells
the snake survives the move onto row B and Deadly comes only one tick later;
the code's test is inclusive (`>=`), so the tick that reaches the half-extent
row already kills.  Along x the half-extent is 5 cells (130): a Right-facing
single-segment snake from the spawn cell is already dead after 5 ticks (x
reaches 143 ≥ 130), alive after 4.  Along y (half-extent 10 cells, 260) the
Up-facing spawn snake is dead after 10 ticks (y reaches 273 ≥ 260), alive
after 9 — never surviving through the half-extent row as claimed. -/
theorem boundary_reach_deadly_cex :
    (simulate (List.replicate 4 [])
        { snake := [{ id := 0,
                      seg := { curr_dir := Direction.Right, next_dir := Direction.Right },
                      pos := { x := 13, y := 13 } }],
          foods := [], nextId := 1, exited := false }).exited = false ∧
    (simulate (List.replicate 5 [])
        { snake := [{ id := 0,
                      seg := { curr_dir := Direction.Right, next_dir := Direction.Right },
                      pos := { x := 13, y := 13 } }],
          foods := [], nextId := 1, exited := false }).exited = true ∧
    (simulate (List.replicate 9 []) setupState).exited = false ∧
    (simulate (List.replicate 10 []) setupState).exited = true := by
  decide

/-- C4 amended: the collision step signals Deadly for a single-segment snake
exactly when the head's absolute coordinate reaches or exceeds half the
play-field extent in either axis (the test is inclusive); the Up-facing
single-segment snake from the spawn cell survives the ticks moving it to
rows 1..9 and the tick that reaches row 10 (the y half-extent in cells)
yields Deadly. -/
theorem boundary_inclusive_amended :
    (∀ (p : Pos) (foods : List FoodEntity),
        CollisionEvent.Deadly ∈ (check_collisions p [] foods).1 ↔
          boundaryDeadly p = true) ∧
    (∀ k : Nat, k ≤ 9 → (simulate (List.replicate k []) setupState).exited = false) ∧
    (simulate (List.replicate 10 []) setupState).exited = true := by
  refine ⟨?_, by decide, by decide⟩
  intro p foods
  cases hb : boundaryDeadly p with
  | true => simp [check_collisions, hb]
  | false => simp [check_collisions, hb, List.mem_map]

/-- Witness for C4 at five ticks from the spawn state. -/
theorem boundary_inclusive_amended_witness :
    (simulate (List.replicate 5 []) setupState).exited = false :=
  boundary_inclusive_amended.2.1 5 (by decide)

/-- C8: after any tick from a reachable state, every surviving food's
position is disjoint from every segment's position (I3); one tick and the
food spawner both preserve the reachable-state invariants (the spawner only
places food on a cell no existing entity occupies); any tick in which the
head reaches a food's position removes that food; and the initial state is
reachable-good. -/
theorem food_exclusivity :
    (∀ (keys : List Key) (s : FrameState), GoodState s →
        ∀ f ∈ (tick keys s).foods,
          f.pos ∉ (tick keys s).snake.map (fun e => e.pos)) ∧
    (∀ (keys : List Key) (s : FrameState), GoodState s → GoodState (tick keys s)) ∧
    (∀ (cs : List (Int × Int)) (s : FrameState), GoodState s →
        GoodState (spawn_food cs s)) ∧
    (∀ (p : Pos) (bp : List Pos) (fo : List FoodEntity) (f : FoodEntity),
        f ∈ fo → f.pos = p → f ∉ (check_collisions p bp fo).2) ∧
    GoodState setupState := by
  refine ⟨fun keys s hg => (good_tick keys s hg).2.2.1, good_tick, good_spawn, ?_, good_setup⟩
  intro p bp fo f hf hp hmem
  have hmem2 : f ∈ fo.filter (fun g => !collide p unitSize g.pos unitSize) := hmem
  have hcol := (List.mem_filter.mp hmem2).2
  have hc : collide p unitSize f.pos unitSize = true := (collide_unit_iff _ _).mpr hp.symm
  rw [hc] at hcol
  simp at hcol

/-- Witness for C8: one tick from the initial state keeps food exclusivity,
and the head eating a food at its own cell removes it. -/
theorem food_exclusivity_witness :
    GoodState (tick [] setupState) ∧
    ({ id := 7, pos := { x := 13, y := 39 } } : FoodEntity) ∉
      (check_collisions { x := 13, y := 39 } []
        [{ id := 7, pos := { x := 13, y := 39 } }]).2 :=
  ⟨food_exclusivity.2.1 [] setupState good_setup,
   food_exclusivity.2.2.2.1 { x := 13, y := 39 } []
     [{ id := 7, pos := { x := 13, y := 39 } }]
     { id := 7, pos := { x := 13, y := 39 } } (by simp) rfl⟩

end Snek
